import Mathlib

/-!
Shallow embedding of src/OneScream/Engine/criticalsection.h.

The file wraps a recursive OS mutex (Windows CRITICAL_SECTION on WIN32,
a PTHREAD_MUTEX_RECURSIVE pthread mutex on APPLE) in a class
Sync::CriticalSection with optional debug owner tracking, and provides
a class AtomicOps with SafeGet/SafeSet (atomic exchange intrinsics) and
Increment/Decrement (intrinsics on WIN32, a lock-guarded fallback
elsewhere).

Thread identifiers are modelled as Nat, with the convention of the
source comment at line 55 (Windows docs say 0 is not a valid thread id):
0 denotes the absence of a thread.  Machine integers for the 32-bit
Increment/Decrement operations are modelled as bit patterns, Nat values
below 2^32, with arithmetic reduced modulo 2^32; signed overflow of the
C increment is modelled as the two's-complement wraparound that both
target platforms exhibit.
-/

/-- State of the underlying recursive OS mutex.  Models the documented
semantics shared by the Windows CRITICAL_SECTION and a pthread mutex of
type PTHREAD_MUTEX_RECURSIVE: a holder thread id (0 when unlocked) and a
recursion depth. -/
structure MutexState where
  owner : Nat
  count : Nat
deriving Repr, DecidableEq

/-- Documented behaviour of EnterCriticalSection and of
pthread_mutex_lock on a recursive mutex: succeeds, incrementing the
recursion depth, when the mutex is free or already held by the calling
thread; otherwise the caller blocks, modelled as none. -/
def mutexLock (tid : Nat) (m : MutexState) : Option MutexState :=
  if m.owner = 0 ∨ m.owner = tid then some ⟨tid, m.count + 1⟩ else none

/-- Documented behaviour of TryEnterCriticalSection and of
pthread_mutex_trylock on a recursive mutex: acquires (incrementing the
depth) exactly when the mutex is free or held by the caller, otherwise
returns false at once without changing the mutex. -/
def mutexTryLock (tid : Nat) (m : MutexState) : Bool × MutexState :=
  if m.owner = 0 ∨ m.owner = tid then (true, ⟨tid, m.count + 1⟩) else (false, m)

/-- Documented behaviour of LeaveCriticalSection and of
pthread_mutex_unlock on a recursive mutex: the holder decrements the
depth, releasing the mutex when the depth reaches zero; unlocking a
mutex one does not hold is undefined, modelled as none. -/
def mutexUnlock (tid : Nat) (m : MutexState) : Option MutexState :=
  if m.owner = tid then
    some (if m.count ≤ 1 then ⟨0, 0⟩ else ⟨tid, m.count - 1⟩)
  else none

/-- Sync::CriticalSection: the OS mutex together with the TRACK_OWNER
debug field thread_ (criticalsection.h lines 87 and 130). -/
structure CriticalSection where
  mutex_ : MutexState
  thread_ : Nat
deriving Repr, DecidableEq

/-- The constructor (lines 53-57 and 92-100): initializes the native
handle and sets thread_ = 0. -/
def CriticalSection.init : CriticalSection := ⟨⟨0, 0⟩, 0⟩

/-- Enter (lines 61-64 and 104-107): lock the mutex, then
TRACK_OWNER(thread_ = current thread id). -/
def CriticalSection.Enter (tid : Nat) (cs : CriticalSection) :
    Option CriticalSection :=
  (mutexLock tid cs.mutex_).map fun m => ⟨m, tid⟩

/-- TryEnter (lines 65-71 and 108-114): try to lock the mutex; on
success set thread_ to the current thread id and return true, otherwise
return false leaving everything unchanged. -/
def CriticalSection.TryEnter (tid : Nat) (cs : CriticalSection) :
    Bool × CriticalSection :=
  match mutexTryLock tid cs.mutex_ with
  | (true, m) => (true, ⟨m, tid⟩)
  | (false, _) => (false, cs)

/-- Leave (lines 72-75 and 115-118): TRACK_OWNER(thread_ = 0), then
unlock the mutex. -/
def CriticalSection.Leave (tid : Nat) (cs : CriticalSection) :
    Option CriticalSection :=
  (mutexUnlock tid cs.mutex_).map fun m => ⟨m, 0⟩

/-- CurrentThreadIsOwner (lines 82 and 125): compares the tracked
thread_ field with the calling thread id. -/
def CriticalSection.CurrentThreadIsOwner (tid : Nat) (cs : CriticalSection) :
    Bool :=
  cs.thread_ == tid

/-- A critical section is unlocked: no owner, recursion depth zero. -/
def CriticalSection.Unlocked (cs : CriticalSection) : Prop :=
  cs.mutex_.owner = 0 ∧ cs.mutex_.count = 0

/-- The atomic exchange intrinsic (InterlockedExchange on WIN32,
the test-and-set builtin on APPLE): stores the new value and returns
the value held immediately before.  The location value is threaded
explicitly; the result is (returned value, new location value). -/
def interlockedExchange (nVal nNewVal : Int) : Int × Int :=
  (nVal, nNewVal)

/-- AtomicOps::SafeGet (lines 142-153): an exchange of the current
value with itself; returns (returned value, new location value). -/
def AtomicOps.SafeGet (nVal : Int) : Int × Int :=
  interlockedExchange nVal nVal

/-- AtomicOps::SafeSet (lines 155-167): an exchange with the new
value; returns (returned value, new location value). -/
def AtomicOps.SafeSet (nVal nNewVal : Int) : Int × Int :=
  interlockedExchange nVal nNewVal

/-- InterlockedIncrement on a 32-bit LONG bit pattern: stores and
returns the incremented value, wrapping modulo 2^32. -/
def interlockedIncrement (i : Nat) : Nat × Nat :=
  ((i + 1) % 2 ^ 32, (i + 1) % 2 ^ 32)

/-- InterlockedDecrement on a 32-bit LONG bit pattern: stores and
returns the decremented value, wrapping modulo 2^32. -/
def interlockedDecrement (i : Nat) : Nat × Nat :=
  ((i + (2 ^ 32 - 1)) % 2 ^ 32, (i + (2 ^ 32 - 1)) % 2 ^ 32)

/-- AtomicOps::Increment, WIN32 intrinsic branch (lines 172-174):
InterlockedIncrement on the location reinterpreted as LONG; returns
(returned value, new location value). -/
def AtomicOps.IncrementWin32 (i : Nat) : Nat × Nat :=
  interlockedIncrement i

/-- AtomicOps::Decrement, WIN32 intrinsic branch (lines 175-177). -/
def AtomicOps.DecrementWin32 (i : Nat) : Nat × Nat :=
  interlockedDecrement i

/-- Modelled from the spec: SafeLock, the scoped-acquisition helper
declared in isync.h (not present under src/), acquires the given lock
on construction and unconditionally releases it on destruction.
AtomicOps::Increment, non-WIN32 fallback branch (lines 179-185):
SafeLock scope(StaticCrit()); return ++(*i).  The state of the shared
StaticCrit lock is threaded explicitly; the result is
(returned value, lock state at exit, new location value); none models
blocking on a lock held by another thread. -/
def AtomicOps.IncrementFallback (tid : Nat) (crit : CriticalSection)
    (i : Nat) : Option (Nat × CriticalSection × Nat) :=
  match crit.Enter tid with
  | none => none
  | some c1 =>
    let r := (i + 1) % 2 ^ 32
    match c1.Leave tid with
    | none => none
    | some c2 => some (r, c2, r)

/-- Modelled from the spec: SafeLock as above.  AtomicOps::Decrement,
non-WIN32 fallback branch (lines 187-193): SafeLock scope(StaticCrit());
return --(*i). -/
def AtomicOps.DecrementFallback (tid : Nat) (crit : CriticalSection)
    (i : Nat) : Option (Nat × CriticalSection × Nat) :=
  match crit.Enter tid with
  | none => none
  | some c1 =>
    let r := (i + (2 ^ 32 - 1)) % 2 ^ 32
    match c1.Leave tid with
    | none => none
    | some c2 => some (r, c2, r)

/-- AtomicOps::StaticCrit (lines 196-199): the process-wide singleton
fallback lock, created on first use; its initial state. -/
def AtomicOps.StaticCritInit : CriticalSection := CriticalSection.init

/-- The platform selected by the preprocessor: WIN32, APPLE, or any
other platform, for which the source has no intrinsic branch. -/
inductive Platform
  | win32
  | apple
  | other
deriving Repr, DecidableEq

/-- Which implementation of AtomicOps::SafeGet the preprocessor selects
(lines 142-153): an exchange intrinsic on WIN32 and APPLE; on every
other platform the error directive at line 149 aborts the build, so no
implementation exists, modelled as none. -/
def SafeGetImpl : Platform → Option (Int → Int × Int)
  | Platform.win32 => some AtomicOps.SafeGet
  | Platform.apple => some AtomicOps.SafeGet
  | Platform.other => none

/-- Which implementation of AtomicOps::SafeSet the preprocessor selects
(lines 155-167): an exchange intrinsic on WIN32 and APPLE; on every
other platform the error directive at line 163 aborts the build. -/
def SafeSetImpl : Platform → Option (Int → Int → Int × Int)
  | Platform.win32 => some AtomicOps.SafeSet
  | Platform.apple => some AtomicOps.SafeSet
  | Platform.other => none

/-- Signed two's-complement reading of a 32-bit bit pattern. -/
def int32ToInt (b : Nat) : Int :=
  if b < 2 ^ 31 then (b : Int) else (b : Int) - 2 ^ 32

/-- C1: Set stores the new value and returns the value the location
held immediately before the replacement. -/
theorem safeSet_exchanges (v newVal : Int) :
    (AtomicOps.SafeSet v newVal).1 = v ∧
    (AtomicOps.SafeSet v newVal).2 = newVal :=
  ⟨rfl, rfl⟩

/-- C2: Get returns the value currently stored and leaves the location
holding the same value afterwards. -/
theorem safeGet_pure_read (v : Int) :
    (AtomicOps.SafeGet v).1 = v ∧ (AtomicOps.SafeGet v).2 = v :=
  ⟨rfl, rfl⟩

/-- Evaluates the Increment fallback from an unlocked shared lock: it
acquires, increments modulo 2^32, and releases, leaving the lock free. -/
theorem incrementFallback_unlocked (tid v : Nat) (crit : CriticalSection)
    (hown : crit.mutex_.owner = 0) (hcnt : crit.mutex_.count = 0) :
    AtomicOps.IncrementFallback tid crit v
      = some ((v + 1) % 2 ^ 32, ⟨⟨0, 0⟩, 0⟩, (v + 1) % 2 ^ 32) := by
  simp [AtomicOps.IncrementFallback, CriticalSection.Enter, CriticalSection.Leave,
        mutexLock, mutexUnlock, hown, hcnt]

/-- Evaluates the Decrement fallback from an unlocked shared lock. -/
theorem decrementFallback_unlocked (tid v : Nat) (crit : CriticalSection)
    (hown : crit.mutex_.owner = 0) (hcnt : crit.mutex_.count = 0) :
    AtomicOps.DecrementFallback tid crit v
      = some ((v + (2 ^ 32 - 1)) % 2 ^ 32, ⟨⟨0, 0⟩, 0⟩,
              (v + (2 ^ 32 - 1)) % 2 ^ 32) := by
  simp [AtomicOps.DecrementFallback, CriticalSection.Enter, CriticalSection.Leave,
        mutexLock, mutexUnlock, hown, hcnt]

/-- C3: Increment on a location holding v stores v+1 and returns the
value after the increment, on the intrinsic path and on the lock-based
fallback path (arithmetic modulo 2^32; exact v+1 below the wrap). -/
theorem increment_both_paths (tid v : Nat) (crit : CriticalSection)
    (htid : tid ≠ 0) (hv : v < 2 ^ 32) (hcrit : crit.Unlocked) :
    AtomicOps.IncrementWin32 v = ((v + 1) % 2 ^ 32, (v + 1) % 2 ^ 32) ∧
    AtomicOps.IncrementFallback tid crit v
      = some ((v + 1) % 2 ^ 32, ⟨⟨0, 0⟩, 0⟩, (v + 1) % 2 ^ 32) ∧
    (v + 1 < 2 ^ 32 → AtomicOps.IncrementWin32 v = (v + 1, v + 1)) := by
  refine ⟨rfl, incrementFallback_unlocked tid v crit hcrit.1 hcrit.2, ?_⟩
  intro h
  unfold AtomicOps.IncrementWin32 interlockedIncrement
  rw [Nat.mod_eq_of_lt h]

/-- C4: Decrement on a location holding v stores v-1 and returns the
value after the decrement, on the intrinsic path and on the lock-based
fallback path (arithmetic modulo 2^32; exact v-1 when v is nonzero). -/
theorem decrement_both_paths (tid v : Nat) (crit : CriticalSection)
    (htid : tid ≠ 0) (hv : v < 2 ^ 32) (hcrit : crit.Unlocked) :
    AtomicOps.DecrementWin32 v
      = ((v + (2 ^ 32 - 1)) % 2 ^ 32, (v + (2 ^ 32 - 1)) % 2 ^ 32) ∧
    AtomicOps.DecrementFallback tid crit v
      = some ((v + (2 ^ 32 - 1)) % 2 ^ 32, ⟨⟨0, 0⟩, 0⟩,
              (v + (2 ^ 32 - 1)) % 2 ^ 32) ∧
    (1 ≤ v → AtomicOps.DecrementWin32 v = (v - 1, v - 1)) := by
  refine ⟨rfl, decrementFallback_unlocked tid v crit hcrit.1 hcrit.2, ?_⟩
  intro h
  have hmod : (v + (2 ^ 32 - 1)) % 2 ^ 32 = v - 1 := by omega
  unfold AtomicOps.DecrementWin32 interlockedDecrement
  rw [hmod]

/-- C5: the recursive state machine of the lock: Acquire from Unlocked
yields depth 1 for the caller; Acquire by the holder increments the
depth; Acquire while another thread holds blocks; Release by the holder
at depth above one decrements; Release at depth one unlocks; and a
thread acquiring twice does not deadlock, the lock becoming free only
after the second matching Release. -/
theorem criticalSection_state_machine (tid : Nat) (cs : CriticalSection)
    (htid : tid ≠ 0) :
    (cs.Unlocked → cs.Enter tid = some ⟨⟨tid, 1⟩, tid⟩) ∧
    (cs.mutex_.owner = tid →
        cs.Enter tid = some ⟨⟨tid, cs.mutex_.count + 1⟩, tid⟩) ∧
    (cs.mutex_.owner ≠ 0 → cs.mutex_.owner ≠ tid → cs.Enter tid = none) ∧
    (cs.mutex_.owner = tid → 1 < cs.mutex_.count →
        cs.Leave tid = some ⟨⟨tid, cs.mutex_.count - 1⟩, 0⟩) ∧
    (cs.mutex_.owner = tid → cs.mutex_.count = 1 →
        cs.Leave tid = some ⟨⟨0, 0⟩, 0⟩) ∧
    (cs.Unlocked →
      ∃ c1 c2 c3 c4 : CriticalSection,
        cs.Enter tid = some c1 ∧ c1.Enter tid = some c2 ∧
        c2.Leave tid = some c3 ∧ c3.mutex_.owner = tid ∧ ¬ c3.Unlocked ∧
        c3.Leave tid = some c4 ∧ c4.Unlocked) := by
  refine ⟨?_, ?_, ?_, ?_, ?_, ?_⟩
  · rintro ⟨hown, hcnt⟩
    simp [CriticalSection.Enter, mutexLock, hown, hcnt]
  · intro hown
    simp [CriticalSection.Enter, mutexLock, hown]
  · intro h0 hne
    simp [CriticalSection.Enter, mutexLock, h0, hne]
  · intro hown hcnt
    have hne : ¬ cs.mutex_.count ≤ 1 := by omega
    simp [CriticalSection.Leave, mutexUnlock, hown, hne]
  · intro hown hcnt
    simp [CriticalSection.Leave, mutexUnlock, hown, hcnt]
  · rintro ⟨hown, hcnt⟩
    refine ⟨⟨⟨tid, 1⟩, tid⟩, ⟨⟨tid, 2⟩, tid⟩, ⟨⟨tid, 1⟩, 0⟩, ⟨⟨0, 0⟩, 0⟩,
            ?_, ?_, ?_, rfl, ?_, ?_, ?_⟩
    · simp [CriticalSection.Enter, mutexLock, hown, hcnt]
    · simp [CriticalSection.Enter, mutexLock]
    · simp [CriticalSection.Leave, mutexUnlock]
    · simp [CriticalSection.Unlocked]
    · simp [CriticalSection.Leave, mutexUnlock]
    · exact ⟨rfl, rfl⟩

/-- C7: TryAcquire returns true and acquires (incrementing the depth,
recording the caller as holder) exactly when the lock is free or held
by the caller; otherwise it returns false leaving the lock unchanged.
It is a total function of the current state: it never blocks. -/
theorem tryEnter_nonblocking (tid : Nat) (cs : CriticalSection)
    (htid : tid ≠ 0) :
    ((cs.TryEnter tid).1 = true ↔
        cs.mutex_.owner = 0 ∨ cs.mutex_.owner = tid) ∧
    ((cs.TryEnter tid).1 = true →
        (cs.TryEnter tid).2 = ⟨⟨tid, cs.mutex_.count + 1⟩, tid⟩) ∧
    ((cs.TryEnter tid).1 = false → (cs.TryEnter tid).2 = cs) := by
  by_cases h : cs.mutex_.owner = 0 ∨ cs.mutex_.owner = tid
  · simp [CriticalSection.TryEnter, mutexTryLock, h]
  · simp [CriticalSection.TryEnter, mutexTryLock, h]

/-- C10: Increment and Decrement wrap modulo 2^32, identically on the
intrinsic and on the fallback path, and incrementing the maximum
representable 32-bit value yields the minimum. -/
theorem increment_decrement_wrap (tid v : Nat) (htid : tid ≠ 0)
    (hv : v < 2 ^ 32) :
    AtomicOps.IncrementWin32 v = ((v + 1) % 2 ^ 32, (v + 1) % 2 ^ 32) ∧
    AtomicOps.DecrementWin32 v
      = ((v + (2 ^ 32 - 1)) % 2 ^ 32, (v + (2 ^ 32 - 1)) % 2 ^ 32) ∧
    AtomicOps.IncrementFallback tid AtomicOps.StaticCritInit v
      = some ((AtomicOps.IncrementWin32 v).1, ⟨⟨0, 0⟩, 0⟩,
              (AtomicOps.IncrementWin32 v).2) ∧
    AtomicOps.DecrementFallback tid AtomicOps.StaticCritInit v
      = some ((AtomicOps.DecrementWin32 v).1, ⟨⟨0, 0⟩, 0⟩,
              (AtomicOps.DecrementWin32 v).2) ∧
    int32ToInt 2147483647 = 2 ^ 31 - 1 ∧
    (AtomicOps.IncrementWin32 2147483647).2 = 2147483648 ∧
    int32ToInt 2147483648 = -(2 ^ 31) := by
  refine ⟨rfl,
          rfl,
          incrementFallback_unlocked tid v AtomicOps.StaticCritInit rfl rfl,
          decrementFallback_unlocked tid v AtomicOps.StaticCritInit rfl rfl,
          by decide, by decide, by decide⟩

/-- One interaction with a single lock: some valid thread (nonzero id)
performs Enter, TryEnter, or Leave, the blocking and undefined cases
excluded as in the respective models. -/
def CSStep (a b : CriticalSection) : Prop :=
  ∃ tid : Nat, tid ≠ 0 ∧
    (a.Enter tid = some b ∨ b = (a.TryEnter tid).2 ∨ a.Leave tid = some b)

/-- States of a lock reachable from its freshly constructed state. -/
def CSReachable (cs : CriticalSection) : Prop :=
  Relation.ReflTransGen CSStep CriticalSection.init cs

/-- States reachable under a non-recursive discipline: every step keeps
the recursion depth at most one. -/
def CSReachableFlat (cs : CriticalSection) : Prop :=
  Relation.ReflTransGen (fun a b => CSStep a b ∧ b.mutex_.count ≤ 1)
    CriticalSection.init cs

/-- C6 counterexample: after Enter, Enter, Leave by thread 1 the lock
is still held by thread 1 at depth 1, yet the tracked thread_ field is
0 and CurrentThreadIsOwner reports false for the holder. -/
theorem owner_tracking_counterexample :
    CSReachable ⟨⟨1, 1⟩, 0⟩ ∧
    (⟨⟨1, 1⟩, 0⟩ : CriticalSection).mutex_.owner = 1 ∧
    (⟨⟨1, 1⟩, 0⟩ : CriticalSection).mutex_.count ≠ 0 ∧
    (⟨⟨1, 1⟩, 0⟩ : CriticalSection).thread_ ≠
      (⟨⟨1, 1⟩, 0⟩ : CriticalSection).mutex_.owner ∧
    CriticalSection.CurrentThreadIsOwner 1 ⟨⟨1, 1⟩, 0⟩ = false := by
  refine ⟨?_, rfl, by decide, by decide, by decide⟩
  have s1 : CSStep CriticalSection.init ⟨⟨1, 1⟩, 1⟩ :=
    ⟨1, by decide, Or.inl (by decide)⟩
  have s2 : CSStep ⟨⟨1, 1⟩, 1⟩ ⟨⟨1, 2⟩, 1⟩ :=
    ⟨1, by decide, Or.inl (by decide)⟩
  have s3 : CSStep ⟨⟨1, 2⟩, 1⟩ ⟨⟨1, 1⟩, 0⟩ :=
    ⟨1, by decide, Or.inr (Or.inr (by decide))⟩
  exact Relation.ReflTransGen.head s1 (Relation.ReflTransGen.head s2
    (Relation.ReflTransGen.single s3))

/-- The inductive invariant of non-recursive use: the tracked field
matches the mutex holder, the depth stays at most one, and the lock is
free exactly at depth zero. -/
def FlatInv (cs : CriticalSection) : Prop :=
  cs.thread_ = cs.mutex_.owner ∧ cs.mutex_.count ≤ 1 ∧
    (cs.mutex_.owner = 0 ↔ cs.mutex_.count = 0)

/-- A depth-bounded step preserves the flat-use invariant. -/
theorem csStep_flatInv {a b : CriticalSection} (hstep : CSStep a b)
    (hb : b.mutex_.count ≤ 1) (ha : FlatInv a) : FlatInv b := by
  obtain ⟨ha1, ha2, ha3⟩ := ha
  obtain ⟨tid, htid, henter | htry | hleave⟩ := hstep
  · unfold CriticalSection.Enter mutexLock at henter
    by_cases hc : a.mutex_.owner = 0 ∨ a.mutex_.owner = tid
    · rw [if_pos hc] at henter
      simp only [Option.map_some', Option.some.injEq] at henter
      subst henter
      refine ⟨rfl, hb, ?_⟩
      have hb' : a.mutex_.count + 1 ≤ 1 := hb
      constructor
      · intro hx
        exact absurd hx htid
      · intro hx
        exact absurd hx (Nat.succ_ne_zero _)
    · rw [if_neg hc] at henter
      exact Option.noConfusion henter
  · subst htry
    unfold CriticalSection.TryEnter mutexTryLock at hb ⊢
    by_cases hc : a.mutex_.owner = 0 ∨ a.mutex_.owner = tid
    · rw [if_pos hc] at hb ⊢
      refine ⟨rfl, hb, ?_⟩
      have hb' : a.mutex_.count + 1 ≤ 1 := hb
      constructor
      · intro hx
        exact absurd hx htid
      · intro hx
        exact absurd hx (Nat.succ_ne_zero _)
    · rw [if_neg hc] at hb ⊢
      exact ⟨ha1, ha2, ha3⟩
  · unfold CriticalSection.Leave mutexUnlock at hleave
    by_cases hc : a.mutex_.owner = tid
    · rw [if_pos hc, if_pos ha2] at hleave
      simp only [Option.map_some', Option.some.injEq] at hleave
      subst hleave
      exact ⟨rfl, Nat.zero_le _, Iff.rfl⟩
    · rw [if_neg hc] at hleave
      exact Option.noConfusion hleave

/-- C6 amended: at every state reachable under the non-recursive
discipline, the tracked owner field equals the holder id (0 when
unlocked) and CurrentThreadIsOwner answers ownership exactly; the
recursive counterexample above is excluded. -/
theorem owner_tracking_flat (cs : CriticalSection)
    (h : CSReachableFlat cs) :
    cs.thread_ = cs.mutex_.owner ∧
    ∀ tid : Nat, tid ≠ 0 →
      (cs.CurrentThreadIsOwner tid = true ↔ cs.mutex_.owner = tid) := by
  have hinv : FlatInv cs := by
    induction h with
    | refl => exact ⟨rfl, by decide, by decide⟩
    | tail hab hbc ih => exact csStep_flatInv hbc.1 hbc.2 ih
  refine ⟨hinv.1, fun tid _ => ?_⟩
  unfold CriticalSection.CurrentThreadIsOwner
  rw [hinv.1]
  simp

/-- Witness for the amended C6 at the freshly constructed lock. -/
theorem owner_tracking_flat_witness :
    CriticalSection.init.thread_ = CriticalSection.init.mutex_.owner ∧
    ∀ tid : Nat, tid ≠ 0 →
      (CriticalSection.init.CurrentThreadIsOwner tid = true ↔
        CriticalSection.init.mutex_.owner = tid) :=
  owner_tracking_flat CriticalSection.init Relation.ReflTransGen.refl

/-- C8 counterexample: on the platform without native atomic
intrinsics, SafeGet and SafeSet have no implementation at all (the
build fails at the error directives, lines 149 and 163), so not every
one of the four operations has a lock-based fallback. -/
theorem atomic_fallback_counterexample :
    SafeGetImpl Platform.other = none ∧ SafeSetImpl Platform.other = none :=
  ⟨rfl, rfl⟩

/-- C8 amended: only Increment and Decrement have the fallback that
acquires the shared process-wide lock, performs the plain
read-modify-write, and releases, computing the same result as the
intrinsic path; Get and Set have no fallback on intrinsic-less
platforms. -/
theorem atomic_fallback_amended (tid v : Nat) (crit : CriticalSection)
    (htid : tid ≠ 0) (hv : v < 2 ^ 32) (hcrit : crit.Unlocked) :
    AtomicOps.IncrementFallback tid crit v
      = some ((AtomicOps.IncrementWin32 v).1, ⟨⟨0, 0⟩, 0⟩,
              (AtomicOps.IncrementWin32 v).2) ∧
    AtomicOps.DecrementFallback tid crit v
      = some ((AtomicOps.DecrementWin32 v).1, ⟨⟨0, 0⟩, 0⟩,
              (AtomicOps.DecrementWin32 v).2) ∧
    SafeGetImpl Platform.other = none ∧ SafeSetImpl Platform.other = none :=
  ⟨incrementFallback_unlocked tid v crit hcrit.1 hcrit.2,
   decrementFallback_unlocked tid v crit hcrit.1 hcrit.2, rfl, rfl⟩

/-- Witness for C3 at thread 1, value 5, fresh lock. -/
theorem increment_both_paths_witness :
    AtomicOps.IncrementWin32 5 = ((5 + 1) % 2 ^ 32, (5 + 1) % 2 ^ 32) ∧
    AtomicOps.IncrementFallback 1 CriticalSection.init 5
      = some ((5 + 1) % 2 ^ 32, ⟨⟨0, 0⟩, 0⟩, (5 + 1) % 2 ^ 32) ∧
    (5 + 1 < 2 ^ 32 → AtomicOps.IncrementWin32 5 = (5 + 1, 5 + 1)) :=
  increment_both_paths 1 5 CriticalSection.init (by decide) (by decide)
    ⟨rfl, rfl⟩

/-- Witness for C4 at thread 1, value 5, fresh lock. -/
theorem decrement_both_paths_witness :
    AtomicOps.DecrementWin32 5
      = ((5 + (2 ^ 32 - 1)) % 2 ^ 32, (5 + (2 ^ 32 - 1)) % 2 ^ 32) ∧
    AtomicOps.DecrementFallback 1 CriticalSection.init 5
      = some ((5 + (2 ^ 32 - 1)) % 2 ^ 32, ⟨⟨0, 0⟩, 0⟩,
              (5 + (2 ^ 32 - 1)) % 2 ^ 32) ∧
    (1 ≤ 5 → AtomicOps.DecrementWin32 5 = (5 - 1, 5 - 1)) :=
  decrement_both_paths 1 5 CriticalSection.init (by decide) (by decide)
    ⟨rfl, rfl⟩

/-- Witness for C5 at thread 1 and the freshly constructed lock. -/
theorem criticalSection_state_machine_witness :
    (CriticalSection.init.Unlocked →
        CriticalSection.init.Enter 1 = some ⟨⟨1, 1⟩, 1⟩) ∧
    (CriticalSection.init.mutex_.owner = 1 →
        CriticalSection.init.Enter 1
          = some ⟨⟨1, CriticalSection.init.mutex_.count + 1⟩, 1⟩) ∧
    (CriticalSection.init.mutex_.owner ≠ 0 →
        CriticalSection.init.mutex_.owner ≠ 1 →
        CriticalSection.init.Enter 1 = none) ∧
    (CriticalSection.init.mutex_.owner = 1 →
        1 < CriticalSection.init.mutex_.count →
        CriticalSection.init.Leave 1
          = some ⟨⟨1, CriticalSection.init.mutex_.count - 1⟩, 0⟩) ∧
    (CriticalSection.init.mutex_.owner = 1 →
        CriticalSection.init.mutex_.count = 1 →
        CriticalSection.init.Leave 1 = some ⟨⟨0, 0⟩, 0⟩) ∧
    (CriticalSection.init.Unlocked →
      ∃ c1 c2 c3 c4 : CriticalSection,
        CriticalSection.init.Enter 1 = some c1 ∧ c1.Enter 1 = some c2 ∧
        c2.Leave 1 = some c3 ∧ c3.mutex_.owner = 1 ∧ ¬ c3.Unlocked ∧
        c3.Leave 1 = some c4 ∧ c4.Unlocked) :=
  criticalSection_state_machine 1 CriticalSection.init (by decide)

/-- Witness for C7 at thread 1 and the freshly constructed lock. -/
theorem tryEnter_nonblocking_witness :
    ((CriticalSection.init.TryEnter 1).1 = true ↔
        CriticalSection.init.mutex_.owner = 0 ∨
          CriticalSection.init.mutex_.owner = 1) ∧
    ((CriticalSection.init.TryEnter 1).1 = true →
        (CriticalSection.init.TryEnter 1).2
          = ⟨⟨1, CriticalSection.init.mutex_.count + 1⟩, 1⟩) ∧
    ((CriticalSection.init.TryEnter 1).1 = false →
        (CriticalSection.init.TryEnter 1).2 = CriticalSection.init) :=
  tryEnter_nonblocking 1 CriticalSection.init (by decide)

/-- Witness for C10 at thread 1 and value 7. -/
theorem increment_decrement_wrap_witness :
    AtomicOps.IncrementWin32 7 = ((7 + 1) % 2 ^ 32, (7 + 1) % 2 ^ 32) ∧
    AtomicOps.DecrementWin32 7
      = ((7 + (2 ^ 32 - 1)) % 2 ^ 32, (7 + (2 ^ 32 - 1)) % 2 ^ 32) ∧
    AtomicOps.IncrementFallback 1 AtomicOps.StaticCritInit 7
      = some ((AtomicOps.IncrementWin32 7).1, ⟨⟨0, 0⟩, 0⟩,
              (AtomicOps.IncrementWin32 7).2) ∧
    AtomicOps.DecrementFallback 1 AtomicOps.StaticCritInit 7
      = some ((AtomicOps.DecrementWin32 7).1, ⟨⟨0, 0⟩, 0⟩,
              (AtomicOps.DecrementWin32 7).2) ∧
    int32ToInt 2147483647 = 2 ^ 31 - 1 ∧
    (AtomicOps.IncrementWin32 2147483647).2 = 2147483648 ∧
    int32ToInt 2147483648 = -(2 ^ 31) :=
  increment_decrement_wrap 1 7 (by decide) (by decide)

/-- Witness for the amended C8 at thread 1, value 3, fresh lock. -/
theorem atomic_fallback_amended_witness :
    AtomicOps.IncrementFallback 1 CriticalSection.init 3
      = some ((AtomicOps.IncrementWin32 3).1, ⟨⟨0, 0⟩, 0⟩,
              (AtomicOps.IncrementWin32 3).2) ∧
    AtomicOps.DecrementFallback 1 CriticalSection.init 3
      = some ((AtomicOps.DecrementWin32 3).1, ⟨⟨0, 0⟩, 0⟩,
              (AtomicOps.DecrementWin32 3).2) ∧
    SafeGetImpl Platform.other = none ∧ SafeSetImpl Platform.other = none :=
  atomic_fallback_amended 1 3 CriticalSection.init (by decide) (by decide)
    ⟨rfl, rfl⟩

/-- Phase of a worker thread inside its increment loop: outside the
critical region, just entered the lock, holding a loaded copy of the
counter in a register, or having stored the incremented value but not
yet released. -/
inductive Phase
  | outside
  | entered
  | loaded (reg : Nat)
  | stored
deriving Repr, DecidableEq

/-- A worker thread of the counter experiment: how many increments
remain and where in the protected region it stands. -/
structure TState where
  rem : Nat
  ph : Phase
deriving Repr, DecidableEq

/-- Global state of the experiment on the spec testable property: the
shared CriticalSection, the shared counter, and all worker threads. -/
structure GState (n : Nat) where
  lock : CriticalSection
  counter : Nat
  thr : Fin n → TState

/-- Thread id of worker i; nonzero, as required of valid thread ids. -/
def tidOf {n : Nat} (i : Fin n) : Nat := i.val + 1

/-- Worker ids are valid. -/
theorem tidOf_ne_zero {n : Nat} (i : Fin n) : tidOf i ≠ 0 :=
  Nat.succ_ne_zero _

/-- Worker ids are distinct. -/
theorem tidOf_inj {n : Nat} {i j : Fin n} (h : tidOf i = tidOf j) : i = j :=
  Fin.ext (Nat.succ_injective h)

/-- One interleaving step: some worker with increments left acquires
the lock (blocking while another worker holds it), or loads the counter
into its register, or stores the incremented register (the increment is
deliberately non-atomic: load and store are separate steps), or
releases the lock and retires one iteration. -/
def CStep {n : Nat} (s s' : GState n) : Prop :=
  ∃ i : Fin n,
    ((s.thr i).rem ≠ 0 ∧ (s.thr i).ph = Phase.outside ∧
      ∃ c', s.lock.Enter (tidOf i) = some c' ∧
        s' = ⟨c', s.counter,
              Function.update s.thr i ⟨(s.thr i).rem, Phase.entered⟩⟩) ∨
    ((s.thr i).ph = Phase.entered ∧
      s' = ⟨s.lock, s.counter,
            Function.update s.thr i ⟨(s.thr i).rem, Phase.loaded s.counter⟩⟩) ∨
    (∃ r, (s.thr i).ph = Phase.loaded r ∧
      s' = ⟨s.lock, r + 1,
            Function.update s.thr i ⟨(s.thr i).rem, Phase.stored⟩⟩) ∨
    ((s.thr i).ph = Phase.stored ∧
      ∃ c', s.lock.Leave (tidOf i) = some c' ∧
        s' = ⟨c', s.counter,
              Function.update s.thr i ⟨(s.thr i).rem - 1, Phase.outside⟩⟩)

/-- Initial state: fresh lock, counter zero, each of the n workers with
M increments to perform. -/
def initG (n M : Nat) : GState n :=
  ⟨CriticalSection.init, 0, fun _ => ⟨M, Phase.outside⟩⟩

/-- Reachability of the experiment under every interleaving. -/
def GReachable (n M : Nat) (s : GState n) : Prop :=
  Relation.ReflTransGen CStep (initG n M) s

/-- Contribution of one worker to the counter: completed increments,
plus one for an increment stored but not yet retired. -/
def contrib (M : Nat) (t : TState) : Nat :=
  (M - t.rem) + (if t.ph = Phase.stored then 1 else 0)

/-- The inductive invariant: the counter equals the workers' summed
contributions; a loaded register mirrors the counter; every worker in
the region owns the lock (hence at most one is inside); the lock's
owner is inside; depth is 0 when free and 1 when held; iteration
bookkeeping stays in range. -/
structure GInv (n M : Nat) (s : GState n) : Prop where
  hsum : s.counter = Finset.univ.sum fun j => contrib M (s.thr j)
  hreg : ∀ i r, (s.thr i).ph = Phase.loaded r → r = s.counter
  hown : ∀ i, (s.thr i).ph ≠ Phase.outside → s.lock.mutex_.owner = tidOf i
  hlockph : ∀ i, s.lock.mutex_.owner = tidOf i → (s.thr i).ph ≠ Phase.outside
  hcnt0 : s.lock.mutex_.owner = 0 → s.lock.mutex_.count = 0
  hcnt1 : s.lock.mutex_.owner ≠ 0 → s.lock.mutex_.count = 1
  hrem : ∀ i, (s.thr i).rem ≤ M
  hphrem : ∀ i, (s.thr i).ph ≠ Phase.outside → 1 ≤ (s.thr i).rem

/-- Updating one worker without changing its contribution keeps the
summed contribution. -/
theorem sum_contrib_update {n M : Nat} (f : Fin n → TState) (i : Fin n)
    (t : TState) (h : contrib M t = contrib M (f i)) :
    (Finset.univ.sum fun j => contrib M (Function.update f i t j))
      = Finset.univ.sum fun j => contrib M (f j) := by
  apply Finset.sum_congr rfl
  intro j _
  by_cases hj : j = i
  · subst hj
    rw [Function.update_same]
    exact h
  · rw [Function.update_noteq hj]

/-- Updating one worker to raise its contribution by one raises the
summed contribution by one. -/
theorem sum_contrib_update_succ {n M : Nat} (f : Fin n → TState)
    (i : Fin n) (t : TState) (h : contrib M t = contrib M (f i) + 1) :
    (Finset.univ.sum fun j => contrib M (Function.update f i t j))
      = (Finset.univ.sum fun j => contrib M (f j)) + 1 := by
  have key : ∀ j, contrib M (Function.update f i t j)
      = Function.update (fun k => contrib M (f k)) i (contrib M t) j := by
    intro j
    by_cases hj : j = i
    · subst hj
      rw [Function.update_same, Function.update_same]
    · rw [Function.update_noteq hj, Function.update_noteq hj]
  rw [Finset.sum_congr rfl (fun j _ => key j),
      Finset.sum_update_of_mem (Finset.mem_univ i), h,
      Finset.sum_eq_sum_diff_singleton_add (Finset.mem_univ i)
        (fun j => contrib M (f j))]
  omega

/-- Every interleaving step preserves the invariant. -/
theorem cstep_inv {n M : Nat} {s s' : GState n} (hstep : CStep s s')
    (hinv : GInv n M s) : GInv n M s' := by
  obtain ⟨i, hacq | hload | hstore | hrel⟩ := hstep
  · -- acquire
    obtain ⟨hrem0, hph, c', henter, hs'⟩ := hacq
    have howner0 : s.lock.mutex_.owner = 0 := by
      unfold CriticalSection.Enter mutexLock at henter
      by_cases hc : s.lock.mutex_.owner = 0 ∨ s.lock.mutex_.owner = tidOf i
      · rcases hc with h0 | hi
        · exact h0
        · exact absurd hph (hinv.hlockph i hi)
      · rw [if_neg hc] at henter
        exact Option.noConfusion henter
    have hcnt := hinv.hcnt0 howner0
    have hc' : c' = ⟨⟨tidOf i, 1⟩, tidOf i⟩ := by
      unfold CriticalSection.Enter mutexLock at henter
      rw [if_pos (Or.inl howner0), hcnt] at henter
      simp only [Option.map_some', Option.some.injEq] at henter
      exact henter.symm
    subst hs'
    subst hc'
    refine ⟨?_, ?_, ?_, ?_, ?_, ?_, ?_, ?_⟩ <;> dsimp only
    · rw [hinv.hsum]
      exact (sum_contrib_update s.thr i _ (by simp [contrib, hph])).symm
    · intro j r hj
      by_cases hji : j = i
      · subst hji
        rw [Function.update_same] at hj
        exact absurd hj (by simp)
      · rw [Function.update_noteq hji] at hj
        exact hinv.hreg j r hj
    · intro j hj
      by_cases hji : j = i
      · subst hji
        rfl
      · rw [Function.update_noteq hji] at hj
        have hx := hinv.hown j hj
        rw [howner0] at hx
        exact absurd hx.symm (tidOf_ne_zero j)
    · intro j hj
      have hji : j = i := tidOf_inj hj.symm
      subst hji
      rw [Function.update_same]
      simp
    · intro h0
      exact absurd h0 (tidOf_ne_zero i)
    · intro _
      rfl
    · intro j
      by_cases hji : j = i
      · subst hji
        rw [Function.update_same]
        exact hinv.hrem j
      · rw [Function.update_noteq hji]
        exact hinv.hrem j
    · intro j hj
      by_cases hji : j = i
      · subst hji
        rw [Function.update_same] at hj ⊢
        exact Nat.one_le_iff_ne_zero.mpr hrem0
      · rw [Function.update_noteq hji] at hj ⊢
        exact hinv.hphrem j hj
  · -- load
    obtain ⟨hph, hs'⟩ := hload
    subst hs'
    refine ⟨?_, ?_, ?_, ?_, ?_, ?_, ?_, ?_⟩ <;> dsimp only
    · rw [hinv.hsum]
      exact (sum_contrib_update s.thr i _ (by simp [contrib, hph])).symm
    · intro j r hj
      by_cases hji : j = i
      · subst hji
        rw [Function.update_same] at hj
        simp only [Phase.loaded.injEq] at hj
        exact hj.symm
      · rw [Function.update_noteq hji] at hj
        exact hinv.hreg j r hj
    · intro j hj
      by_cases hji : j = i
      · subst hji
        exact hinv.hown j (by simp [hph])
      · rw [Function.update_noteq hji] at hj
        exact hinv.hown j hj
    · intro j hj
      have hx := hinv.hlockph j hj
      by_cases hji : j = i
      · subst hji
        rw [Function.update_same]
        simp
      · rw [Function.update_noteq hji]
        exact hx
    · exact hinv.hcnt0
    · exact hinv.hcnt1
    · intro j
      by_cases hji : j = i
      · subst hji
        rw [Function.update_same]
        exact hinv.hrem j
      · rw [Function.update_noteq hji]
        exact hinv.hrem j
    · intro j hj
      by_cases hji : j = i
      · subst hji
        rw [Function.update_same] at hj ⊢
        exact hinv.hphrem j (by simp [hph])
      · rw [Function.update_noteq hji] at hj ⊢
        exact hinv.hphrem j hj
  · -- store
    obtain ⟨r, hph, hs'⟩ := hstore
    have hr : r = s.counter := hinv.hreg i r hph
    subst hs'
    refine ⟨?_, ?_, ?_, ?_, ?_, ?_, ?_, ?_⟩ <;> dsimp only
    · rw [hr, hinv.hsum]
      exact (sum_contrib_update_succ s.thr i _ (by simp [contrib, hph])).symm
    · intro j r' hj
      by_cases hji : j = i
      · subst hji
        rw [Function.update_same] at hj
        exact absurd hj (by simp)
      · rw [Function.update_noteq hji] at hj
        have hj' : (s.thr j).ph ≠ Phase.outside := by simp [hj]
        have hi' : (s.thr i).ph ≠ Phase.outside := by simp [hph]
        have hx := (hinv.hown j hj').symm.trans (hinv.hown i hi')
        exact absurd (tidOf_inj hx) hji
    · intro j hj
      by_cases hji : j = i
      · subst hji
        exact hinv.hown j (by simp [hph])
      · rw [Function.update_noteq hji] at hj
        exact hinv.hown j hj
    · intro j hj
      have hx := hinv.hlockph j hj
      by_cases hji : j = i
      · subst hji
        rw [Function.update_same]
        simp
      · rw [Function.update_noteq hji]
        exact hx
    · exact hinv.hcnt0
    · exact hinv.hcnt1
    · intro j
      by_cases hji : j = i
      · subst hji
        rw [Function.update_same]
        exact hinv.hrem j
      · rw [Function.update_noteq hji]
        exact hinv.hrem j
    · intro j hj
      by_cases hji : j = i
      · subst hji
        rw [Function.update_same] at hj ⊢
        exact hinv.hphrem j (by simp [hph])
      · rw [Function.update_noteq hji] at hj ⊢
        exact hinv.hphrem j hj
  · -- release
    obtain ⟨hph, c', hleave, hs'⟩ := hrel
    have hi' : (s.thr i).ph ≠ Phase.outside := by simp [hph]
    have howner := hinv.hown i hi'
    have hcount : s.lock.mutex_.count = 1 := by
      refine hinv.hcnt1 ?_
      rw [howner]
      exact tidOf_ne_zero i
    have hc' : c' = ⟨⟨0, 0⟩, 0⟩ := by
      unfold CriticalSection.Leave mutexUnlock at hleave
      rw [if_pos howner, if_pos (by omega)] at hleave
      simp only [Option.map_some', Option.some.injEq] at hleave
      exact hleave.symm
    subst hs'
    subst hc'
    refine ⟨?_, ?_, ?_, ?_, ?_, ?_, ?_, ?_⟩ <;> dsimp only
    · rw [hinv.hsum]
      refine (sum_contrib_update s.thr i _ ?_).symm
      have h1 := hinv.hphrem i hi'
      have h2 := hinv.hrem i
      simp only [contrib, hph]
      simp only [show (Phase.outside = Phase.stored) = False by simp,
                 show (Phase.stored = Phase.stored) = True by simp]
      simp only [if_true, if_false]
      omega
    · intro j r' hj
      by_cases hji : j = i
      · subst hji
        rw [Function.update_same] at hj
        exact absurd hj (by simp)
      · rw [Function.update_noteq hji] at hj
        have hj' : (s.thr j).ph ≠ Phase.outside := by simp [hj]
        have hx := (hinv.hown j hj').symm.trans howner
        exact absurd (tidOf_inj hx) hji
    · intro j hj
      by_cases hji : j = i
      · subst hji
        rw [Function.update_same] at hj
        exact absurd rfl hj
      · rw [Function.update_noteq hji] at hj
        have hx := (hinv.hown j hj).symm.trans howner
        exact absurd (tidOf_inj hx) hji
    · intro j hj
      exact absurd hj.symm (tidOf_ne_zero j)
    · intro _
      rfl
    · intro h0
      exact absurd rfl h0
    · intro j
      by_cases hji : j = i
      · subst hji
        rw [Function.update_same]
        have hx := hinv.hrem j
        dsimp only
        omega
      · rw [Function.update_noteq hji]
        exact hinv.hrem j
    · intro j hj
      by_cases hji : j = i
      · subst hji
        rw [Function.update_same] at hj
        exact absurd rfl hj
      · rw [Function.update_noteq hji] at hj ⊢
        exact hinv.hphrem j hj

/-- The initial state satisfies the invariant. -/
theorem initG_inv (n M : Nat) : GInv n M (initG n M) := by
  refine ⟨?_, ?_, ?_, ?_, ?_, ?_, ?_, ?_⟩ <;> dsimp only [initG]
  · simp [contrib]
  · intro j r hj
    exact absurd hj (by simp)
  · intro j hj
    exact absurd rfl hj
  · intro j hj
    exact absurd hj.symm (tidOf_ne_zero j)
  · intro _
    rfl
  · intro h0
    exact absurd rfl h0
  · intro j
    exact Nat.le_refl M
  · intro j hj
    exact absurd rfl hj

/-- Every reachable state satisfies the invariant. -/
theorem greachable_inv {n M : Nat} {s : GState n} (h : GReachable n M s) :
    GInv n M s := by
  induction h with
  | refl => exact initG_inv n M
  | tail hab hbc ih => exact cstep_inv hbc ih

/-- C9: mutual exclusion and no lost updates: in every reachable state
of the experiment at most one worker is inside the protected region,
and once every worker has retired all its M iterations the shared
counter holds exactly n times M. -/
theorem lock_mutual_exclusion (n M : Nat) (s : GState n)
    (h : GReachable n M s) :
    (∀ i j : Fin n, (s.thr i).ph ≠ Phase.outside →
        (s.thr j).ph ≠ Phase.outside → i = j) ∧
    ((∀ i : Fin n, (s.thr i).rem = 0) → s.counter = n * M) := by
  have hinv := greachable_inv h
  constructor
  · intro i j hi hj
    exact tidOf_inj ((hinv.hown i hi).symm.trans (hinv.hown j hj))
  · intro hdone
    rw [hinv.hsum]
    have hconst : ∀ j : Fin n, contrib M (s.thr j) = M := by
      intro j
      have hrj := hdone j
      have hout : (s.thr j).ph = Phase.outside := by
        by_contra hne
        have hx := hinv.hphrem j hne
        omega
      simp [contrib, hout, hrj]
    rw [Finset.sum_congr rfl (fun j _ => hconst j)]
    simp [Finset.sum_const, Finset.card_univ, mul_comm]

/-- Demonstration trace for one worker and one iteration: start. -/
def gs0 : GState 1 := initG 1 1

/-- After the worker acquires the lock. -/
def gs1 : GState 1 :=
  ⟨⟨⟨1, 1⟩, 1⟩, 0, Function.update gs0.thr 0 ⟨1, Phase.entered⟩⟩

/-- After it loads the counter into its register. -/
def gs2 : GState 1 :=
  ⟨⟨⟨1, 1⟩, 1⟩, 0, Function.update gs1.thr 0 ⟨1, Phase.loaded 0⟩⟩

/-- After it stores the incremented register. -/
def gs3 : GState 1 :=
  ⟨⟨⟨1, 1⟩, 1⟩, 1, Function.update gs2.thr 0 ⟨1, Phase.stored⟩⟩

/-- After it releases the lock and retires the iteration. -/
def gs4 : GState 1 :=
  ⟨⟨⟨0, 0⟩, 0⟩, 1, Function.update gs3.thr 0 ⟨0, Phase.outside⟩⟩

/-- The demonstration trace is an execution of the experiment. -/
theorem gs4_reachable : GReachable 1 1 gs4 := by
  have t1 : CStep gs0 gs1 :=
    ⟨0, Or.inl ⟨by decide, rfl, ⟨⟨1, 1⟩, 1⟩, by decide, rfl⟩⟩
  have t2 : CStep gs1 gs2 :=
    ⟨0, Or.inr (Or.inl ⟨rfl, rfl⟩)⟩
  have t3 : CStep gs2 gs3 :=
    ⟨0, Or.inr (Or.inr (Or.inl ⟨0, rfl, rfl⟩))⟩
  have t4 : CStep gs3 gs4 :=
    ⟨0, Or.inr (Or.inr (Or.inr ⟨rfl, ⟨⟨0, 0⟩, 0⟩, by decide, rfl⟩))⟩
  exact Relation.ReflTransGen.head t1 (Relation.ReflTransGen.head t2
    (Relation.ReflTransGen.head t3 (Relation.ReflTransGen.single t4)))

/-- Witness for C9: one worker performing its single locked increment
through the four-step trace above ends with the counter at 1 times 1. -/
theorem lock_mutual_exclusion_witness :
    (∀ i j : Fin 1, (gs4.thr i).ph ≠ Phase.outside →
        (gs4.thr j).ph ≠ Phase.outside → i = j) ∧
    ((∀ i : Fin 1, (gs4.thr i).rem = 0) → gs4.counter = 1 * 1) :=
  lock_mutual_exclusion 1 1 gs4 gs4_reachable
